import Mathlib

/-!
# QuCumber observable-estimation subsystem: a verification development

The repository's engineering core, per its design description, is the
Gibbs-sampling observable estimator (the `statistics` routine of the
`Observable` module) and the `ObservableEvaluator` training callback that
drives it.  The repository snapshot at hand contains the callers and the
documentation of this subsystem (the Tutorial 4 notebook) but not the
library sources themselves, so the estimator and the callback are modelled
here from the design description, faithfully to its words:

* samples are drawn by iterating a Markov (Gibbs) transition `burn_in`
  times with all intermediate states discarded, then recording every
  `steps`-th subsequent state until `num_samples` samples are collected,
  optionally pooling `num_chains` parallel independent chains;
* `num_samples` must be evenly divisible by the number of chains, else a
  validation error is raised before any sampling step;
* sampling is deterministic given a seed;
* the training callback fires every `log_every` epochs, draws a fresh
  batch from the current model parameters, and appends one statistic
  record (mean, variance, standard error) per observable to an in-memory
  time series keyed by epoch.

Numeric values are modelled with exact rationals; the standard error is
carried as its square (`stdErrSq`) so that all statistics stay inside `ℚ`
(the square root does not change equality or ordering of nonnegative
values, which is all the claims need).
-/

namespace QuCumber

/-- Modelled from the spec: the sampling keyword arguments of the
`statistics` routine, with the default values documented in the
Tutorial 4 notebook (`num_chains = 0`, `burn_in = 1000`, `steps = 1`). -/
structure SamplerConfig where
  num_samples : Nat
  num_chains : Nat := 0
  burn_in : Nat := 1000
  steps : Nat := 1
deriving DecidableEq

/-- Modelled from the spec: a statistic record for one observable on one
sample batch.  `stdErrSq` is the square of the reported standard error
(`variance / num_samples`), kept squared to remain in exact arithmetic. -/
structure Stats where
  mean : ℚ
  variance : ℚ
  stdErrSq : ℚ
deriving DecidableEq

/-- Modelled from the spec: a generative model (the trained neural network
state) as seen by the sampler.  `P` is the type of the parameter tensors,
`σ` the type of configuration vectors.  `v0` is the initial chain state and
`gibbs_step p r s` performs one Gibbs transition from state `s` with
pseudo-random-number-generator state `r` under parameters `p`, returning
the next configuration and the advanced generator state.  Sampling is
deterministic given the seed, as the spec requires. -/
structure NNState (P σ : Type) where
  v0 : σ
  gibbs_step : P → Nat → σ → σ × Nat

variable {P σ : Type}

/-- Modelled from the spec: the number of chains actually run.  The chains
feature is optional; `num_chains = 0` (the default) means a single chain. -/
def effChains (cfg : SamplerConfig) : Nat :=
  if cfg.num_chains = 0 then 1 else cfg.num_chains

/-- Samples collected per chain: `num_samples` split over the chains. -/
def perChain (cfg : SamplerConfig) : Nat :=
  cfg.num_samples / effChains cfg

/-- Modelled from the spec: the validation performed before sampling:
`num_samples` must be evenly divisible by the number of chains. -/
def validConfig (cfg : SamplerConfig) : Bool :=
  cfg.num_samples % effChains cfg == 0

/-- Iterate the Gibbs transition `n` times, threading the generator. -/
def iterGibbs (M : NNState P σ) (p : P) : Nat → Nat → σ → σ × Nat
  | 0, r, s => (s, r)
  | n + 1, r, s => iterGibbs M p n (M.gibbs_step p r s).2 (M.gibbs_step p r s).1

/-- Record `m` samples, performing `st` Gibbs transitions before each. -/
def collect (M : NNState P σ) (p : P) (st : Nat) : Nat → Nat → σ → List σ × Nat
  | 0, r, _ => ([], r)
  | m + 1, r, s =>
      let x := iterGibbs M p st r s
      let y := collect M p st m x.2 x.1
      (x.1 :: y.1, y.2)

/-- One full chain: burn in from the initial state, discarding the
intermediate states, then record `perChain cfg` samples spaced by
`cfg.steps` transitions. -/
def oneChain (M : NNState P σ) (p : P) (cfg : SamplerConfig) (r : Nat) :
    List σ × Nat :=
  collect M p cfg.steps (perChain cfg)
    (iterGibbs M p cfg.burn_in r M.v0).2 (iterGibbs M p cfg.burn_in r M.v0).1

/-- Run `c` independent chains, pooling their samples in order; the
generator state is threaded from one chain to the next. -/
def runChains (M : NNState P σ) (p : P) (cfg : SamplerConfig) :
    Nat → Nat → List σ × Nat
  | 0, r => ([], r)
  | c + 1, r =>
      ((oneChain M p cfg r).1 ++ (runChains M p cfg c (oneChain M p cfg r).2).1,
       (runChains M p cfg c (oneChain M p cfg r).2).2)

/-- Generator state at which chain `c` (0-based) starts. -/
def chainRng (M : NNState P σ) (p : P) (cfg : SamplerConfig) :
    Nat → Nat → Nat
  | seed, 0 => seed
  | seed, c + 1 => chainRng M p cfg (oneChain M p cfg seed).2 c

/-- Modelled from the spec: the sample batch drawn for one estimator call. -/
def sampleBatch (M : NNState P σ) (p : P) (cfg : SamplerConfig) (seed : Nat) :
    List σ :=
  (runChains M p cfg (effChains cfg) seed).1

/-- Modelled from the spec: sample mean, sample variance and (squared)
standard error of the mean of a list of observable values. -/
def computeStats (xs : List ℚ) : Stats :=
  let n : ℚ := (xs.length : ℚ)
  let mean := xs.sum / n
  let variance := (xs.map (fun x => (x - mean) * (x - mean))).sum / (n - 1)
  { mean := mean, variance := variance, stdErrSq := variance / n }

/-- Statistics of one observable on the batch drawn for a configuration,
without validation (used by callers that have already validated). -/
def statsOf (M : NNState P σ) (p : P) (f : σ → ℚ) (cfg : SamplerConfig)
    (seed : Nat) : Stats :=
  computeStats ((sampleBatch M p cfg seed).map f)

/-- The message of the validation error raised on a malformed
sample-count/chain-count configuration. -/
def validationMsg : String :=
  "num_samples must be evenly divisible by num_chains"

/-- Result of an estimator call: either a statistic record or a fatal
validation error. -/
inductive EstResult where
  | ok (s : Stats)
  | error (msg : String)
deriving DecidableEq

/-- Modelled from the spec: the `statistics` routine.  The configuration is
validated first; a degenerate configuration is rejected with a validation
error before sampling begins. -/
def statistics (M : NNState P σ) (p : P) (f : σ → ℚ) (cfg : SamplerConfig)
    (seed : Nat) : EstResult :=
  if validConfig cfg then EstResult.ok (statsOf M p f cfg seed)
  else EstResult.error validationMsg

/-- An estimator call that passes only `num_samples`, leaving every other
sampling argument at its default. -/
def statisticsDefault (M : NNState P σ) (p : P) (f : σ → ℚ)
    (num_samples : Nat) (seed : Nat) : EstResult :=
  statistics M p f { num_samples := num_samples } seed

/-! ## Instrumented sampler

The same sampler with an explicit counter of Gibbs transitions performed,
used to state that a rejected configuration performs no sampling step. -/

/-- `iterGibbs` instrumented with a counter of transitions performed. -/
def iterGibbsC (M : NNState P σ) (p : P) :
    Nat → Nat → σ → Nat → (σ × Nat) × Nat
  | 0, r, s, k => ((s, r), k)
  | n + 1, r, s, k =>
      iterGibbsC M p n (M.gibbs_step p r s).2 (M.gibbs_step p r s).1 (k + 1)

/-- `collect` instrumented with a counter of transitions performed. -/
def collectC (M : NNState P σ) (p : P) (st : Nat) :
    Nat → Nat → σ → Nat → (List σ × Nat) × Nat
  | 0, r, _, k => (([], r), k)
  | m + 1, r, s, k =>
      let x := iterGibbsC M p st r s k
      let y := collectC M p st m x.1.2 x.1.1 x.2
      ((x.1.1 :: y.1.1, y.1.2), y.2)

/-- `oneChain` instrumented with a counter of transitions performed. -/
def oneChainC (M : NNState P σ) (p : P) (cfg : SamplerConfig) (r : Nat)
    (k : Nat) : (List σ × Nat) × Nat :=
  collectC M p cfg.steps (perChain cfg)
    (iterGibbsC M p cfg.burn_in r M.v0 k).1.2
    (iterGibbsC M p cfg.burn_in r M.v0 k).1.1
    (iterGibbsC M p cfg.burn_in r M.v0 k).2

/-- `runChains` instrumented with a counter of transitions performed. -/
def runChainsC (M : NNState P σ) (p : P) (cfg : SamplerConfig) :
    Nat → Nat → Nat → (List σ × Nat) × Nat
  | 0, r, k => (([], r), k)
  | c + 1, r, k =>
      (((oneChainC M p cfg r k).1.1 ++
          (runChainsC M p cfg c (oneChainC M p cfg r k).1.2
            (oneChainC M p cfg r k).2).1.1,
        (runChainsC M p cfg c (oneChainC M p cfg r k).1.2
          (oneChainC M p cfg r k).2).1.2),
       (runChainsC M p cfg c (oneChainC M p cfg r k).1.2
         (oneChainC M p cfg r k).2).2)

/-- Modelled from the spec: the `statistics` routine instrumented with the
number of Gibbs transitions it performs.  Validation happens before any
sampling, so a rejected call performs zero transitions. -/
def statisticsC (M : NNState P σ) (p : P) (f : σ → ℚ) (cfg : SamplerConfig)
    (seed : Nat) : EstResult × Nat :=
  if validConfig cfg then
    (EstResult.ok (computeStats
        ((runChainsC M p cfg (effChains cfg) seed 0).1.1.map f)),
     (runChainsC M p cfg (effChains cfg) seed 0).2)
  else (EstResult.error validationMsg, 0)

/-! ## Training loop and the `ObservableEvaluator` callback -/

/-- Modelled from the spec: a scalar observable functional, identified by
the name of its class (e.g. `TFIMChainEnergy`). -/
structure Observable (σ : Type) where
  name : String
  apply : σ → ℚ

/-- Modelled from the spec: the `ObservableEvaluator` callback
configuration: the logging interval `log_every`, the monitored
observables, the sampler configuration forwarded to `statistics`, and a
base seed for the sampler's generator. -/
structure ObservableEvaluator (σ : Type) where
  log_every : Nat
  observables : List (Observable σ)
  cfg : SamplerConfig
  seed : Nat

/-- Seed used by the callback's estimator call at epoch `e`: each epoch's
batch is drawn by its own sampler invocation. -/
def evalSeed (ev : ObservableEvaluator σ) (e : Nat) : Nat :=
  ev.seed + e

/-- The statistic records the callback appends at epoch `e` under model
parameters `p`: one record per monitored observable, each computed from
the batch drawn freshly at epoch `e`. -/
def evalEntry (M : NNState P σ) (ev : ObservableEvaluator σ) (e : Nat)
    (p : P) : List (String × Stats) :=
  ev.observables.map (fun ob => (ob.name, statsOf M p ob.apply ev.cfg (evalSeed ev e)))

/-- Modelled from the spec: a trainer: the model being trained and one
epoch of the gradient-descent optimizer, which is the only writer of the
parameters; it threads its own generator state. -/
structure Trainer (P σ : Type) where
  M : NNState P σ
  update : P → Nat → P × Nat

/-- The training log: one entry per fired callback epoch, holding the
epoch number and one named statistic record per observable. -/
abbrev TrainLog := List (Nat × List (String × Stats))

/-- Modelled from the spec: the training loop.  `fitAux T ev p0 r0 e` is
the training state after `e` epochs: current parameters, current
optimizer generator state, and the callback's log.  Each epoch runs one
optimizer update; at every epoch divisible by `log_every` the callback
fires and appends one record per observable, computed from the parameters
of that epoch. -/
def fitAux (T : Trainer P σ) (ev : ObservableEvaluator σ) (p0 : P)
    (r0 : Nat) : Nat → P × Nat × TrainLog
  | 0 => (p0, r0, [])
  | e + 1 =>
      let st := fitAux T ev p0 r0 e
      let u := T.update st.1 st.2.1
      if (e + 1) % ev.log_every == 0 then
        (u.1, u.2, st.2.2 ++ [(e + 1, evalEntry T.M ev (e + 1) u.1)])
      else
        (u.1, u.2, st.2.2)

/-- The callback log after a training run of `e` epochs. -/
def fitLog (T : Trainer P σ) (ev : ObservableEvaluator σ) (p0 : P)
    (r0 : Nat) (e : Nat) : TrainLog :=
  (fitAux T ev p0 r0 e).2.2

/-- The bare training loop, with no callback attached. -/
def bareFit (T : Trainer P σ) (p0 : P) (r0 : Nat) : Nat → P × Nat
  | 0 => (p0, r0)
  | e + 1 => T.update (bareFit T p0 r0 e).1 (bareFit T p0 r0 e).2

/-- The parameters after `e` epochs of training. -/
def paramsAt (T : Trainer P σ) (p0 : P) (r0 : Nat) (e : Nat) : P :=
  (bareFit T p0 r0 e).1

/-! ## Per-observable time-series accessors -/

/-- The time series recorded for the observable named `nm`: the tutorial
retrieves it as an attribute of the evaluator keyed by the observable
class's name (`callbacks[0].TFIMChainEnergy`). -/
def series (log : TrainLog) (nm : String) : List (Nat × Stats) :=
  log.filterMap (fun ent => (ent.2.lookup nm).map (fun st => (ent.1, st)))

/-- The `mean` attribute of an observable's time series. -/
def meanSeries (log : TrainLog) (nm : String) : List ℚ :=
  (series log nm).map (fun x => x.2.mean)

/-- The `variance` attribute of an observable's time series. -/
def varianceSeries (log : TrainLog) (nm : String) : List ℚ :=
  (series log nm).map (fun x => x.2.variance)

/-- The `std_error` attribute of an observable's time series, squared. -/
def stdErrSqSeries (log : TrainLog) (nm : String) : List ℚ :=
  (series log nm).map (fun x => x.2.stdErrSq)

/-! ## Big-step semantics of an estimator run

A run of the estimator is described as a derivation, so that "running the
estimator twice with the same seed and configuration" is two derivations,
and reproducibility is the statement that any two derivations from the
same inputs end in the same statistics. -/

/-- `IterRun M p n r s out`: iterating the Gibbs transition `n` times from
state `s` with generator state `r` ends in `out`. -/
inductive IterRun (M : NNState P σ) (p : P) : Nat → Nat → σ → σ × Nat → Prop
  | done (r : Nat) (s : σ) : IterRun M p 0 r s (s, r)
  | step (n : Nat) (r : Nat) (s : σ) (out : σ × Nat) :
      IterRun M p n (M.gibbs_step p r s).2 (M.gibbs_step p r s).1 out →
      IterRun M p (n + 1) r s out

/-- `CollectRun M p st m r s out`: recording `m` samples spaced by `st`
transitions, starting from `(r, s)`, produces the samples and final
generator state `out`. -/
inductive CollectRun (M : NNState P σ) (p : P) (st : Nat) :
    Nat → Nat → σ → List σ × Nat → Prop
  | done (r : Nat) (s : σ) : CollectRun M p st 0 r s ([], r)
  | more (m : Nat) (r : Nat) (s s' : σ) (r' : Nat) (L : List σ) (r'' : Nat) :
      IterRun M p st r s (s', r') →
      CollectRun M p st m r' s' (L, r'') →
      CollectRun M p st (m + 1) r s (s' :: L, r'')

/-- `ChainsRun M p cfg c r out`: running `c` chains from generator state
`r`, each burning in from the initial state and then recording its share
of the samples, pools the samples into `out`. -/
inductive ChainsRun (M : NNState P σ) (p : P) (cfg : SamplerConfig) :
    Nat → Nat → List σ × Nat → Prop
  | done (r : Nat) : ChainsRun M p cfg 0 r ([], r)
  | more (c : Nat) (r : Nat) (s1 : σ) (r1 : Nat) (L : List σ) (r2 : Nat)
      (L' : List σ) (r3 : Nat) :
      IterRun M p cfg.burn_in r M.v0 (s1, r1) →
      CollectRun M p cfg.steps (perChain cfg) r1 s1 (L, r2) →
      ChainsRun M p cfg c r2 (L', r3) →
      ChainsRun M p cfg (c + 1) r (L ++ L', r3)

/-- `EstRun M p f cfg seed res`: one run of the estimator on observable
`f` under configuration `cfg` from seed `seed`, ending in result `res`. -/
inductive EstRun (M : NNState P σ) (p : P) (f : σ → ℚ) (cfg : SamplerConfig)
    (seed : Nat) : EstResult → Prop
  | invalid : validConfig cfg = false →
      EstRun M p f cfg seed (EstResult.error validationMsg)
  | run (L : List σ) (r' : Nat) : validConfig cfg = true →
      ChainsRun M p cfg (effChains cfg) seed (L, r') →
      EstRun M p f cfg seed (EstResult.ok (computeStats (L.map f)))

/-! ## Toy instances used by the witnesses -/

/-- A tiny concrete model on natural-number states used as a witness
instance: the Gibbs transition mixes state, parameter and generator. -/
def toyM : NNState Nat Nat :=
  { v0 := 0, gibbs_step := fun p r s => (s + p + r % 3, r + 1) }

/-- A concrete scalar observable on the toy model. -/
def toyObs : Observable Nat :=
  { name := "TFIMChainEnergy", apply := fun s => (s : ℚ) }

/-- A tiny sampler configuration that keeps witness computations small. -/
def toyCfg : SamplerConfig :=
  { num_samples := 2, num_chains := 2, burn_in := 2, steps := 3 }

/-- A concrete trainer on the toy model. -/
def toyTrainer : Trainer Nat Nat :=
  { M := toyM, update := fun p r => (p + 2, r + 1) }

/-- An evaluator with the tutorial's logging interval over a cheap
sampler configuration. -/
def toyEval : ObservableEvaluator Nat :=
  { log_every := 100
    observables := [toyObs]
    cfg := { num_samples := 1, num_chains := 0, burn_in := 0, steps := 1 }
    seed := 7 }

/-- An evaluator that fires at every epoch, for the witness runs. -/
def toyEval1 : ObservableEvaluator Nat :=
  { log_every := 1
    observables := [toyObs]
    cfg := { num_samples := 1, num_chains := 0, burn_in := 0, steps := 1 }
    seed := 7 }

/-! ## Sampler lemmas -/

lemma iterGibbs_add (M : NNState P σ) (p : P) (a b : Nat) :
    ∀ (r : Nat) (s : σ),
      iterGibbs M p (a + b) r s
        = iterGibbs M p b (iterGibbs M p a r s).2 (iterGibbs M p a r s).1 := by
  induction a with
  | zero => intro r s; simp [iterGibbs]
  | succ a ih =>
      intro r s
      have hab : a + 1 + b = (a + b) + 1 := by omega
      rw [hab]
      simp only [iterGibbs]
      exact ih _ _

lemma collect_fst (M : NNState P σ) (p : P) (st : Nat) (m : Nat) :
    ∀ (r : Nat) (s : σ),
      (collect M p st m r s).1
        = (List.range m).map (fun k => (iterGibbs M p ((k + 1) * st) r s).1) := by
  induction m with
  | zero => intro r s; simp [collect]
  | succ m ih =>
      intro r s
      rw [List.range_succ_eq_map, List.map_cons, List.map_map]
      simp only [collect]
      refine congrArg₂ List.cons ?_ ?_
      · norm_num
      · rw [ih]
        refine List.map_congr_left (fun k _ => ?_)
        simp only [Function.comp_apply, Nat.succ_eq_add_one]
        have hk : (k + 1 + 1) * st = st + (k + 1) * st := by ring
        rw [hk, iterGibbs_add M p st ((k + 1) * st)]

lemma collect_length (M : NNState P σ) (p : P) (st m r : Nat) (s : σ) :
    (collect M p st m r s).1.length = m := by
  rw [collect_fst]; simp

lemma oneChain_fst (M : NNState P σ) (p : P) (cfg : SamplerConfig) (r : Nat) :
    (oneChain M p cfg r).1
      = (List.range (perChain cfg)).map
          (fun k => (iterGibbs M p (cfg.burn_in + (k + 1) * cfg.steps) r M.v0).1) := by
  simp only [oneChain]
  rw [collect_fst]
  refine List.map_congr_left (fun k _ => ?_)
  rw [iterGibbs_add M p cfg.burn_in ((k + 1) * cfg.steps)]

lemma oneChain_length (M : NNState P σ) (p : P) (cfg : SamplerConfig) (r : Nat) :
    (oneChain M p cfg r).1.length = perChain cfg := by
  rw [oneChain_fst]; simp

lemma runChains_fst (M : NNState P σ) (p : P) (cfg : SamplerConfig) (c : Nat) :
    ∀ seed, (runChains M p cfg c seed).1
      = ((List.range c).map
          (fun i => (oneChain M p cfg (chainRng M p cfg seed i)).1)).flatten := by
  induction c with
  | zero => intro seed; simp [runChains]
  | succ c ih =>
      intro seed
      simp only [runChains]
      rw [List.range_succ_eq_map, List.map_cons, List.map_map, List.flatten_cons]
      refine congrArg₂ (fun a b => a ++ b) rfl ?_
      rw [ih]
      refine congrArg List.flatten (List.map_congr_left (fun i _ => ?_))
      rfl

lemma runChains_length (M : NNState P σ) (p : P) (cfg : SamplerConfig) (c : Nat) :
    ∀ seed, (runChains M p cfg c seed).1.length = c * perChain cfg := by
  induction c with
  | zero => intro seed; simp [runChains]
  | succ c ih =>
      intro seed
      simp only [runChains, List.length_append, oneChain_length, ih]
      ring

/-! ## Instrumented-sampler lemmas: the counter counts Gibbs transitions -/

lemma iterGibbsC_spec (M : NNState P σ) (p : P) (n : Nat) :
    ∀ (r : Nat) (s : σ) (k : Nat),
      iterGibbsC M p n r s k = (iterGibbs M p n r s, k + n) := by
  induction n with
  | zero => intro r s k; simp [iterGibbsC, iterGibbs]
  | succ n ih =>
      intro r s k
      simp only [iterGibbsC, iterGibbs]
      rw [ih]
      congr 1
      omega

lemma collectC_spec (M : NNState P σ) (p : P) (st : Nat) (m : Nat) :
    ∀ (r : Nat) (s : σ) (k : Nat),
      collectC M p st m r s k = (collect M p st m r s, k + m * st) := by
  induction m with
  | zero => intro r s k; simp [collectC, collect]
  | succ m ih =>
      intro r s k
      simp only [collectC, collect, iterGibbsC_spec, ih]
      congr 1
      ring

lemma oneChainC_spec (M : NNState P σ) (p : P) (cfg : SamplerConfig)
    (r k : Nat) :
    oneChainC M p cfg r k
      = (oneChain M p cfg r, k + (cfg.burn_in + perChain cfg * cfg.steps)) := by
  simp only [oneChainC, oneChain, iterGibbsC_spec, collectC_spec]
  congr 1
  ring

lemma runChainsC_spec (M : NNState P σ) (p : P) (cfg : SamplerConfig)
    (c : Nat) :
    ∀ (r k : Nat),
      runChainsC M p cfg c r k
        = (runChains M p cfg c r,
           k + c * (cfg.burn_in + perChain cfg * cfg.steps)) := by
  induction c with
  | zero => intro r k; simp [runChainsC, runChains]
  | succ c ih =>
      intro r k
      simp only [runChainsC, runChains, oneChainC_spec, ih]
      congr 1
      ring

lemma statisticsC_spec (M : NNState P σ) (p : P) (f : σ → ℚ)
    (cfg : SamplerConfig) (seed : Nat) :
    statisticsC M p f cfg seed
      = (statistics M p f cfg seed,
         if validConfig cfg then
           effChains cfg * (cfg.burn_in + perChain cfg * cfg.steps)
         else 0) := by
  unfold statisticsC statistics statsOf sampleBatch
  cases hv : validConfig cfg <;> simp [hv, runChainsC_spec]

/-! ## Training-loop lemmas -/

lemma fitLog_map_fst (T : Trainer P σ) (ev : ObservableEvaluator σ)
    (p0 : P) (r0 : Nat) (E : Nat) :
    (fitLog T ev p0 r0 E).map Prod.fst
      = ((List.range E).map (fun i => i + 1)).filter
          (fun e => e % ev.log_every == 0) := by
  induction E with
  | zero => simp [fitLog, fitAux]
  | succ E ih =>
      rw [List.range_succ, List.map_append, List.filter_append]
      simp only [fitLog, fitAux] at ih ⊢
      cases hc : ((E + 1) % ev.log_every == 0) <;>
        simp [hc, ih, List.filter_cons]

lemma fitLog_entry_lengths (T : Trainer P σ) (ev : ObservableEvaluator σ)
    (p0 : P) (r0 : Nat) (E : Nat) :
    ((fitLog T ev p0 r0 E).all
      (fun ent => ent.2.length == ev.observables.length)) = true := by
  induction E with
  | zero => simp [fitLog, fitAux]
  | succ E ih =>
      simp only [fitLog, fitAux] at ih ⊢
      cases hc : ((E + 1) % ev.log_every == 0) <;>
        simp [hc, ih, evalEntry]

lemma fitAux_fst (T : Trainer P σ) (ev : ObservableEvaluator σ)
    (p0 : P) (r0 : Nat) (e : Nat) :
    (fitAux T ev p0 r0 e).1 = (bareFit T p0 r0 e).1
    ∧ (fitAux T ev p0 r0 e).2.1 = (bareFit T p0 r0 e).2 := by
  induction e with
  | zero => exact ⟨rfl, rfl⟩
  | succ e ih =>
      simp only [fitAux, bareFit]
      cases hc : ((e + 1) % ev.log_every == 0) <;>
        simp [hc, ih.1, ih.2]

lemma fitLog_extends_succ (T : Trainer P σ) (ev : ObservableEvaluator σ)
    (p0 : P) (r0 : Nat) (e : Nat) :
    fitLog T ev p0 r0 e <+: fitLog T ev p0 r0 (e + 1) := by
  simp only [fitLog, fitAux]
  cases hc : ((e + 1) % ev.log_every == 0)
  · simp [hc]
  · simp only [hc, if_true]
    exact List.prefix_append _ _

lemma fitLog_entry_eq (T : Trainer P σ) (ev : ObservableEvaluator σ)
    (p0 : P) (r0 : Nat) (E : Nat) :
    ∀ ent ∈ fitLog T ev p0 r0 E,
      ent.2 = evalEntry T.M ev ent.1 (paramsAt T p0 r0 ent.1) := by
  induction E with
  | zero => intro ent h; simp [fitLog, fitAux] at h
  | succ E ih =>
      intro ent h
      simp only [fitLog, fitAux] at h
      cases hc : ((E + 1) % ev.log_every == 0)
      · rw [hc] at h
        simp only [Bool.false_eq_true, if_false] at h
        exact ih ent h
      · rw [hc] at h
        simp only [if_true, List.mem_append, List.mem_singleton] at h
        rcases h with h | h
        · exact ih ent h
        · subst h
          simp only [paramsAt, bareFit]
          rw [(fitAux_fst T ev p0 r0 E).1, (fitAux_fst T ev p0 r0 E).2]

lemma lookup_name_map (nm : String) (obs : List (Observable σ))
    (g : Observable σ → Stats) (h : nm ∈ obs.map Observable.name) :
    ∃ st, (obs.map (fun ob => (ob.name, g ob))).lookup nm = some st := by
  induction obs with
  | nil => simp at h
  | cons ob rest ih =>
      cases hb : (nm == ob.name)
      · have hmem : nm ∈ rest.map Observable.name := by
          simp only [List.map_cons, List.mem_cons] at h
          rcases h with h | h
          · exact absurd h (by simpa using hb)
          · exact h
        obtain ⟨st, hst⟩ := ih hmem
        exact ⟨st, by simpa [List.lookup, hb] using hst⟩
      · exact ⟨g ob, by simp [List.lookup, hb]⟩

lemma series_map_fst_of_lookup (L : TrainLog) (nm : String)
    (h : ∀ ent ∈ L, (ent.2.lookup nm).isSome = true) :
    (series L nm).map Prod.fst = L.map Prod.fst := by
  induction L with
  | nil => rfl
  | cons ent rest ih =>
      obtain ⟨st, hst⟩ := Option.isSome_iff_exists.mp (h ent (by simp))
      simp only [series, List.filterMap_cons, hst, Option.map_some',
        List.map_cons]
      refine congrArg₂ List.cons rfl ?_
      exact ih (fun e he => h e (by simp [he]))

lemma fitLog_epochs_sorted (T : Trainer P σ) (ev : ObservableEvaluator σ)
    (p0 : P) (r0 : Nat) (E : Nat) :
    List.Pairwise (fun a b => a < b) ((fitLog T ev p0 r0 E).map Prod.fst) := by
  rw [fitLog_map_fst]
  exact ((List.pairwise_lt_range E).map (fun i => i + 1)
    (fun a b hab => by simpa using Nat.add_lt_add_right hab 1)).filter _

/-! ## Determinism and soundness of the estimator semantics -/

lemma iterRun_det (M : NNState P σ) (p : P) {n : Nat} :
    ∀ {r : Nat} {s : σ} {o1 o2 : σ × Nat},
      IterRun M p n r s o1 → IterRun M p n r s o2 → o1 = o2 := by
  induction n with
  | zero =>
      intro r s o1 o2 h1 h2
      cases h1
      cases h2
      rfl
  | succ n ih =>
      intro r s o1 o2 h1 h2
      cases h1 with
      | step _ _ _ _ h1' =>
        cases h2 with
        | step _ _ _ _ h2' => exact ih h1' h2'

lemma collectRun_det (M : NNState P σ) (p : P) (st : Nat) {m : Nat} :
    ∀ {r : Nat} {s : σ} {o1 o2 : List σ × Nat},
      CollectRun M p st m r s o1 → CollectRun M p st m r s o2 → o1 = o2 := by
  induction m with
  | zero =>
      intro r s o1 o2 h1 h2
      cases h1
      cases h2
      rfl
  | succ m ih =>
      intro r s o1 o2 h1 h2
      cases h1 with
      | more _ _ _ s1 r1 L1 q1 hi1 hc1 =>
        cases h2 with
        | more _ _ _ s2 r2 L2 q2 hi2 hc2 =>
          have hp := iterRun_det M p hi1 hi2
          injection hp with hs hr
          subst hs
          subst hr
          have hq := ih hc1 hc2
          injection hq with hL hq'
          subst hL
          subst hq'
          rfl

lemma chainsRun_det (M : NNState P σ) (p : P) (cfg : SamplerConfig)
    {c : Nat} :
    ∀ {r : Nat} {o1 o2 : List σ × Nat},
      ChainsRun M p cfg c r o1 → ChainsRun M p cfg c r o2 → o1 = o2 := by
  induction c with
  | zero =>
      intro r o1 o2 h1 h2
      cases h1
      cases h2
      rfl
  | succ c ih =>
      intro r o1 o2 h1 h2
      cases h1 with
      | more _ _ s1 r1 L1 q1 L1' w1 hb1 hc1 hr1 =>
        cases h2 with
        | more _ _ s2 r2 L2 q2 L2' w2 hb2 hc2 hr2 =>
          have hp := iterRun_det M p hb1 hb2
          injection hp with hs hr
          subst hs
          subst hr
          have hq := collectRun_det M p cfg.steps hc1 hc2
          injection hq with hL hq'
          subst hL
          subst hq'
          have hw := ih hr1 hr2
          injection hw with hL' hw'
          subst hL'
          subst hw'
          rfl

lemma iterRun_iterGibbs (M : NNState P σ) (p : P) (n : Nat) :
    ∀ (r : Nat) (s : σ), IterRun M p n r s (iterGibbs M p n r s) := by
  induction n with
  | zero => intro r s; exact IterRun.done r s
  | succ n ih =>
      intro r s
      exact IterRun.step n r s _ (ih _ _)

lemma collectRun_collect (M : NNState P σ) (p : P) (st : Nat) (m : Nat) :
    ∀ (r : Nat) (s : σ), CollectRun M p st m r s (collect M p st m r s) := by
  induction m with
  | zero => intro r s; exact CollectRun.done r s
  | succ m ih =>
      intro r s
      exact CollectRun.more m r s (iterGibbs M p st r s).1
        (iterGibbs M p st r s).2
        (collect M p st m (iterGibbs M p st r s).2 (iterGibbs M p st r s).1).1
        (collect M p st m (iterGibbs M p st r s).2 (iterGibbs M p st r s).1).2
        (iterRun_iterGibbs M p st r s) (ih _ _)

lemma chainsRun_runChains (M : NNState P σ) (p : P) (cfg : SamplerConfig)
    (c : Nat) :
    ∀ r : Nat, ChainsRun M p cfg c r (runChains M p cfg c r) := by
  induction c with
  | zero => intro r; exact ChainsRun.done r
  | succ c ih =>
      intro r
      exact ChainsRun.more c r
        (iterGibbs M p cfg.burn_in r M.v0).1 (iterGibbs M p cfg.burn_in r M.v0).2
        (oneChain M p cfg r).1 (oneChain M p cfg r).2
        (runChains M p cfg c (oneChain M p cfg r).2).1
        (runChains M p cfg c (oneChain M p cfg r).2).2
        (iterRun_iterGibbs M p cfg.burn_in r M.v0)
        (collectRun_collect M p cfg.steps (perChain cfg) _ _)
        (ih _)

lemma estRun_statistics (M : NNState P σ) (p : P) (f : σ → ℚ)
    (cfg : SamplerConfig) (seed : Nat) :
    EstRun M p f cfg seed (statistics M p f cfg seed) := by
  unfold statistics
  cases hv : validConfig cfg
  · simp only [Bool.false_eq_true, if_false]
    exact EstRun.invalid hv
  · simp only [if_true]
    show EstRun M p f cfg seed
      (EstResult.ok (computeStats ((sampleBatch M p cfg seed).map f)))
    exact EstRun.run (sampleBatch M p cfg seed)
      (runChains M p cfg (effChains cfg) seed).2 hv
      (chainsRun_runChains M p cfg (effChains cfg) seed)

/-! ## The claims -/

/-- C1: for every call to the observable estimator with a configuration in
which `num_samples` is not evenly divisible by `num_chains`, the call
raises the validation error before any sampling step is performed (the
instrumented call performs zero Gibbs transitions), and no statistics are
produced for that call. -/
theorem statistics_rejects_indivisible (M : NNState P σ) (p : P)
    (f : σ → ℚ) (cfg : SamplerConfig) (seed : Nat)
    (h1 : 0 < cfg.num_chains) (h2 : ¬ cfg.num_chains ∣ cfg.num_samples) :
    statistics M p f cfg seed = EstResult.error validationMsg
    ∧ statisticsC M p f cfg seed = (EstResult.error validationMsg, 0) := by
  have he : effChains cfg = cfg.num_chains := by
    unfold effChains
    rw [if_neg (Nat.pos_iff_ne_zero.mp h1)]
  have hv : validConfig cfg = false := by
    unfold validConfig
    rw [he]
    simp only [beq_eq_false_iff_ne, ne_eq]
    intro hmod
    exact h2 (Nat.dvd_of_mod_eq_zero hmod)
  constructor
  · unfold statistics
    rw [hv]
    simp
  · unfold statisticsC
    rw [hv]
    simp

/-- Witness for C1: `num_samples = 10` with `num_chains = 3` is rejected
with the validation error and zero Gibbs transitions performed. -/
theorem statistics_rejects_indivisible_witness :
    statistics toyM 1 toyObs.apply
        { num_samples := 10, num_chains := 3, burn_in := 2, steps := 1 } 0
      = EstResult.error validationMsg
    ∧ statisticsC toyM 1 toyObs.apply
        { num_samples := 10, num_chains := 3, burn_in := 2, steps := 1 } 0
      = (EstResult.error validationMsg, 0) :=
  statistics_rejects_indivisible toyM 1 toyObs.apply
    { num_samples := 10, num_chains := 3, burn_in := 2, steps := 1 } 0
    (by decide) (by decide)

/-- C2: for every model and valid configuration, the batch is drawn by
iterating the Gibbs transition `burn_in` times with the intermediate
states discarded, then recording every `steps`-th subsequent state (the
`k`-th recorded sample of a chain is the state after
`burn_in + (k+1)*steps` transitions from the initial state), pooling the
samples of the parallel chains, until exactly `num_samples` samples are
collected. -/
theorem estimator_sampling_scheme (M : NNState P σ) (p : P)
    (cfg : SamplerConfig) (seed : Nat) (h : validConfig cfg = true) :
    sampleBatch M p cfg seed
      = ((List.range (effChains cfg)).map (fun c =>
          (List.range (perChain cfg)).map (fun k =>
            (iterGibbs M p (cfg.burn_in + (k + 1) * cfg.steps)
              (chainRng M p cfg seed c) M.v0).1))).flatten
    ∧ (sampleBatch M p cfg seed).length = cfg.num_samples := by
  constructor
  · rw [sampleBatch, runChains_fst]
    refine congrArg List.flatten (List.map_congr_left (fun c _ => ?_))
    exact oneChain_fst M p cfg (chainRng M p cfg seed c)
  · rw [sampleBatch, runChains_length]
    have hd : effChains cfg ∣ cfg.num_samples := by
      apply Nat.dvd_of_mod_eq_zero
      simpa [validConfig] using h
    rw [perChain, Nat.mul_comm, Nat.div_mul_cancel hd]

/-- Witness for C2: a concrete valid configuration (4 samples over 2
chains) satisfies the hypothesis and hence the sampling-scheme
characterization. -/
theorem estimator_sampling_scheme_witness :
    validConfig toyCfg = true
    ∧ (sampleBatch toyM 1 toyCfg 0
        = ((List.range (effChains toyCfg)).map (fun c =>
            (List.range (perChain toyCfg)).map (fun k =>
              (iterGibbs toyM 1 (toyCfg.burn_in + (k + 1) * toyCfg.steps)
                (chainRng toyM 1 toyCfg 0 c) toyM.v0).1))).flatten
      ∧ (sampleBatch toyM 1 toyCfg 0).length = toyCfg.num_samples) :=
  ⟨by decide, estimator_sampling_scheme toyM 1 toyCfg 0 (by decide)⟩

set_option maxRecDepth 100000 in
/-- C3: the `ObservableEvaluator` callback produces exactly one statistic
record per observable at each epoch that is a multiple of `log_every` and
at no other epoch; in particular `log_every = 100` over `epochs = 1000`
yields exactly 10 records, at epochs 100, 200, ..., 1000. -/
theorem observable_evaluator_schedule :
    (∀ (P' σ' : Type) (T : Trainer P' σ') (ev : ObservableEvaluator σ')
        (p0 : P') (r0 : Nat) (E : Nat),
      (fitLog T ev p0 r0 E).map Prod.fst
        = ((List.range E).map (fun i => i + 1)).filter
            (fun e => e % ev.log_every == 0)
      ∧ ((fitLog T ev p0 r0 E).all
          (fun ent => ent.2.length == ev.observables.length)) = true)
    ∧ (fitLog toyTrainer toyEval 0 0 1000).map Prod.fst
        = [100, 200, 300, 400, 500, 600, 700, 800, 900, 1000] := by
  refine ⟨fun P' σ' T ev p0 r0 E =>
    ⟨fitLog_map_fst T ev p0 r0 E, fitLog_entry_lengths T ev p0 r0 E⟩, ?_⟩
  rw [fitLog_map_fst]
  decide

/-- C4: two runs of the estimator with the same model, observable, seed
and configuration end in identical statistics: an estimator run is
deterministic. -/
theorem estimator_deterministic (M : NNState P σ) (p : P) (f : σ → ℚ)
    (cfg : SamplerConfig) (seed : Nat) (o1 o2 : EstResult)
    (h1 : EstRun M p f cfg seed o1) (h2 : EstRun M p f cfg seed o2) :
    o1 = o2 := by
  cases h1 with
  | invalid hv1 =>
      cases h2 with
      | invalid hv2 => rfl
      | run L r' hv2 hc2 => rw [hv1] at hv2; cases hv2
  | run L1 r1 hv1 hc1 =>
      cases h2 with
      | invalid hv2 => rw [hv2] at hv1; cases hv1
      | run L2 r2 hv2 hc2 =>
          have hp := chainsRun_det M p cfg hc1 hc2
          injection hp with hL hr
          rw [hL]

/-- Witness for C4: two concrete runs of the estimator from the same
seed and configuration, each a derivation of the big-step semantics,
yield the same result. -/
theorem estimator_deterministic_witness :
    statistics toyM 1 toyObs.apply toyCfg 5
      = statistics toyM 1 toyObs.apply toyCfg 5 :=
  estimator_deterministic toyM 1 toyObs.apply toyCfg 5
    (statistics toyM 1 toyObs.apply toyCfg 5)
    (statistics toyM 1 toyObs.apply toyCfg 5)
    (estRun_statistics toyM 1 toyObs.apply toyCfg 5)
    (estRun_statistics toyM 1 toyObs.apply toyCfg 5)

/-- C6: every invocation of the monitoring callback leaves the training
state unchanged: after any number of epochs, the parameters and the
optimizer's generator state of a run with the callback attached coincide
with those of the bare training loop, in which parameters are written
exclusively by the optimizer. -/
theorem callback_preserves_training_state (T : Trainer P σ)
    (ev : ObservableEvaluator σ) (p0 : P) (r0 : Nat) (e : Nat) :
    (fitAux T ev p0 r0 e).1 = (bareFit T p0 r0 e).1
    ∧ (fitAux T ev p0 r0 e).2.1 = (bareFit T p0 r0 e).2 :=
  fitAux_fst T ev p0 r0 e

/-- C7: if training is interrupted at epoch `t` of a run that would have
lasted `t'` epochs, the log already collected is exactly a prefix of the
full run's log: every record for a completed callback epoch remains valid
and retrievable, none is corrupted or discarded. -/
theorem interruption_preserves_records (T : Trainer P σ)
    (ev : ObservableEvaluator σ) (p0 : P) (r0 : Nat) (t t' : Nat)
    (h : t ≤ t') :
    fitLog T ev p0 r0 t <+: fitLog T ev p0 r0 t' := by
  induction t', h using Nat.le_induction with
  | base => exact List.prefix_refl _
  | succ n hmn ih => exact ih.trans (fitLog_extends_succ T ev p0 r0 n)

/-- Witness for C7: a concrete interrupted run (1 of 3 epochs) keeps its
collected records as a prefix of the full run's log. -/
theorem interruption_preserves_records_witness :
    fitLog toyTrainer toyEval1 0 0 1 <+: fitLog toyTrainer toyEval1 0 0 3 :=
  interruption_preserves_records toyTrainer toyEval1 0 0 1 3 (by decide)

/-- C8: every record in the log at epoch `e` is computed from a sample
batch drawn freshly, by its own sampler invocation with the epoch's own
seed, from the model parameters as they are at epoch `e`; invocations of
distinct epochs are distinct (their seeds differ), so no batch is reused
across epochs. -/
theorem records_from_fresh_batches (T : Trainer P σ)
    (ev : ObservableEvaluator σ) (p0 : P) (r0 : Nat) (E : Nat) :
    (∀ i (h : i < (fitLog T ev p0 r0 E).length),
      ((fitLog T ev p0 r0 E).get ⟨i, h⟩).2
        = ev.observables.map (fun ob =>
            (ob.name, computeStats
              ((sampleBatch T.M
                  (paramsAt T p0 r0 (((fitLog T ev p0 r0 E).get ⟨i, h⟩).1))
                  ev.cfg
                  (evalSeed ev (((fitLog T ev p0 r0 E).get ⟨i, h⟩).1))).map
                ob.apply))))
    ∧ ∀ e e' : Nat, e ≠ e' → evalSeed ev e ≠ evalSeed ev e' := by
  constructor
  · intro i h
    have hent := fitLog_entry_eq T ev p0 r0 E _
      (List.get_mem (fitLog T ev p0 r0 E) i h)
    simpa [evalEntry, statsOf] using hent
  · intro e e' hne
    simp only [evalSeed, ne_eq]
    omega

/-- Witness for C8: in a concrete two-epoch run with the callback firing
each epoch, the first record is computed from the batch freshly drawn at
its epoch, and the seeds of epochs 1 and 2 differ. -/
theorem records_from_fresh_batches_witness :
    ((fitLog toyTrainer toyEval1 0 0 2).get ⟨0, by decide⟩).2
      = toyEval1.observables.map (fun ob =>
          (ob.name, computeStats
            ((sampleBatch toyTrainer.M
                (paramsAt toyTrainer 0 0
                  (((fitLog toyTrainer toyEval1 0 0 2).get ⟨0, by decide⟩).1))
                toyEval1.cfg
                (evalSeed toyEval1
                  (((fitLog toyTrainer toyEval1 0 0 2).get ⟨0, by decide⟩).1))).map
              ob.apply)))
    ∧ evalSeed toyEval1 1 ≠ evalSeed toyEval1 2 :=
  ⟨(records_from_fresh_batches toyTrainer toyEval1 0 0 2).1 0 (by decide),
   (records_from_fresh_batches toyTrainer toyEval1 0 0 2).2 1 2 (by decide)⟩

/-- C9: after training, the evaluator exposes, for every monitored
observable retrieved by its class name, an in-memory time series of
(epoch, statistics) pairs ordered by strictly increasing epoch, with one
entry per fired epoch, whose `mean`, `variance` and (squared) `std_error`
sequences are the per-epoch components of the records. -/
theorem evaluator_time_series (T : Trainer P σ) (ev : ObservableEvaluator σ)
    (p0 : P) (r0 : Nat) (E : Nat) (nm : String)
    (h : nm ∈ ev.observables.map Observable.name) :
    List.Pairwise (fun a b => a < b) ((fitLog T ev p0 r0 E).map Prod.fst)
    ∧ (series (fitLog T ev p0 r0 E) nm).map Prod.fst
        = (fitLog T ev p0 r0 E).map Prod.fst
    ∧ meanSeries (fitLog T ev p0 r0 E) nm
        = (series (fitLog T ev p0 r0 E) nm).map (fun x => x.2.mean)
    ∧ varianceSeries (fitLog T ev p0 r0 E) nm
        = (series (fitLog T ev p0 r0 E) nm).map (fun x => x.2.variance)
    ∧ stdErrSqSeries (fitLog T ev p0 r0 E) nm
        = (series (fitLog T ev p0 r0 E) nm).map (fun x => x.2.stdErrSq) := by
  refine ⟨fitLog_epochs_sorted T ev p0 r0 E, ?_, rfl, rfl, rfl⟩
  apply series_map_fst_of_lookup
  intro ent hent
  rw [fitLog_entry_eq T ev p0 r0 E ent hent]
  obtain ⟨st, hst⟩ := lookup_name_map nm ev.observables
    (fun ob => statsOf T.M (paramsAt T p0 r0 ent.1) ob.apply ev.cfg
      (evalSeed ev ent.1)) h
  unfold evalEntry
  rw [hst]
  rfl

/-- Witness for C9: the toy evaluator monitors an observable named
`TFIMChainEnergy`; after a concrete run its time series is retrievable by
that name with epochs in increasing order. -/
theorem evaluator_time_series_witness :
    List.Pairwise (fun a b => a < b)
        ((fitLog toyTrainer toyEval1 0 0 2).map Prod.fst)
    ∧ (series (fitLog toyTrainer toyEval1 0 0 2) "TFIMChainEnergy").map
          Prod.fst
        = (fitLog toyTrainer toyEval1 0 0 2).map Prod.fst
    ∧ meanSeries (fitLog toyTrainer toyEval1 0 0 2) "TFIMChainEnergy"
        = (series (fitLog toyTrainer toyEval1 0 0 2) "TFIMChainEnergy").map
            (fun x => x.2.mean)
    ∧ varianceSeries (fitLog toyTrainer toyEval1 0 0 2) "TFIMChainEnergy"
        = (series (fitLog toyTrainer toyEval1 0 0 2) "TFIMChainEnergy").map
            (fun x => x.2.variance)
    ∧ stdErrSqSeries (fitLog toyTrainer toyEval1 0 0 2) "TFIMChainEnergy"
        = (series (fitLog toyTrainer toyEval1 0 0 2) "TFIMChainEnergy").map
            (fun x => x.2.stdErrSq) :=
  evaluator_time_series toyTrainer toyEval1 0 0 2 "TFIMChainEnergy"
    (by decide)

/-- C10: the sampling keyword arguments default to `num_chains = 0`,
`burn_in = 1000` and `steps = 1`, and an estimator call that specifies
only `num_samples` behaves identically to one passing these default
values explicitly. -/
theorem statistics_default_arguments (M : NNState P σ) (p : P) (f : σ → ℚ)
    (n : Nat) (seed : Nat) :
    ({ num_samples := n } : SamplerConfig).num_chains = 0
    ∧ ({ num_samples := n } : SamplerConfig).burn_in = 1000
    ∧ ({ num_samples := n } : SamplerConfig).steps = 1
    ∧ statisticsDefault M p f n seed
        = statistics M p f
            { num_samples := n, num_chains := 0, burn_in := 1000, steps := 1 }
            seed :=
  ⟨rfl, rfl, rfl, rfl⟩

end QuCumber
